import Mathlib

/-!
Verification of the basketball shot-analysis core of AIMotionMind.

This file gives a shallow embedding, in Lean 4, of the keyframe-detection
pipeline (sports/basketball/keyframe_detector.py), the metric primitives and
analyzers (sports/basketball/metrics.py), and the error behaviour of the
shot analyzer (sports/basketball/shot_analyzer.py, backend/exceptions.py),
and proves or refutes the specification claims about them.

Modelling conventions:
- Python floats stored per frame (normalized coordinates, angles, velocities)
  are modelled as exact rationals; the real-valued primitives that need
  square roots or arc-cosine (calculate_velocity, calculate_angle) are
  modelled over the reals.
- A Python dict lookup d.get(k, default) on a per-frame map is modelled with
  Option-valued maps plus an explicit default.
- A frame whose pose was not detected is modelled with an empty landmark map.
- Keyframe records keep only the name and the absolute frame index; the
  frame_data, timestamp and description payloads of the source records play
  no role in any claim.
- numpy argmax/argmin return the first index attaining the extremum; maxQ,
  minQ, argmaxQ and argminQ below model exactly that.
-/

/-- Python range(a, b): the list [a, a+1, ..., b-1], empty when b ≤ a. -/
def pyRange (a b : ℕ) : List ℕ := List.range' a (b - a)

/-- Maximum of a rational list, Python max / numpy max on a non-empty list
(the value on the empty list is an unused dummy). -/
def maxQ : List ℚ → ℚ
  | [] => 0
  | [x] => x
  | x :: y :: xs => max x (maxQ (y :: xs))

/-- Minimum of a rational list, Python min / numpy min on a non-empty list. -/
def minQ : List ℚ → ℚ
  | [] => 0
  | [x] => x
  | x :: y :: xs => min x (minQ (y :: xs))

/-- Index of the first occurrence of the maximum, numpy argmax semantics. -/
def argmaxQ : List ℚ → ℕ
  | [] => 0
  | x :: xs => if maxQ (x :: xs) ≤ x then 0 else argmaxQ xs + 1

/-- Index of the first occurrence of the minimum, numpy argmin semantics. -/
def argminQ : List ℚ → ℕ
  | [] => 0
  | x :: xs => if x ≤ minQ (x :: xs) then 0 else argminQ xs + 1

/-- Comparison key used by the final sort of the keyframe map: the absolute
frame index (Python sorted with key lambda x: x[1]['index']). -/
def kfLE (p q : String × ℕ) : Prop := p.2 ≤ q.2

instance : DecidableRel kfLE := fun p q => Nat.decLe p.2 q.2

instance : IsTotal (String × ℕ) kfLE := ⟨fun a b => Nat.le_total a.2 b.2⟩

instance : IsTrans (String × ℕ) kfLE := ⟨fun _ _ _ => Nat.le_trans⟩

/-- Landmark of one joint in one frame; only the normalized y coordinate is
consumed by the keyframe detectors (image y grows downward). -/
structure Landmark where
  y : ℚ
deriving DecidableEq

/-- FrameRecord as consumed by the keyframe detectors and analyzers.
landmarks models frame["landmarks"] (empty map when pose was not detected),
angles models frame["angles"], velocities models the optional
frame["velocities"] dict (present only after the temporal-metrics pass,
inner lookups default to 0), com_height models frame.get("com_height", 0). -/
structure Frame where
  pose_detected : Bool := false
  landmarks : String → Option Landmark := fun _ => none
  angles : String → Option ℚ := fun _ => none
  velocities : Option (String → ℚ) := none
  com_height : ℚ := 0

instance : Inhabited Frame := ⟨{}⟩

/-- Lookup frame["landmarks"].get(j). -/
def Frame.lm (f : Frame) (j : String) : Option Landmark := f.landmarks j

/-- Lookup frame.get("angles", {}).get(name, d). -/
def Frame.angleD (f : Frame) (name : String) (d : ℚ) : ℚ := (f.angles name).getD d

/-- Lookup frame.get("velocities", {}).get(j, 0.0). -/
def Frame.vel (f : Frame) (j : String) : ℚ :=
  match f.velocities with
  | some v => v j
  | none => 0

/-- Indexing frames_data[i] at an index known to be in range. -/
def getFrame (frames : List Frame) (i : ℕ) : Frame := frames.getD i {}

/-- Python [0] + [l[i] - l[i-1] for i in range(1, len(l))], the
frame-to-frame delta series used for angular velocities. -/
def deltas (l : List ℚ) : List ℚ :=
  0 :: (pyRange 1 l.length).map (fun i => l.getD i 0 - l.getD (i - 1) 0)

/-- Wrist-height series with missing wrists replaced by 1.0, shared by
_detect_lift_start, _detect_release and _detect_follow_through. -/
def wrist_heights (frames : List Frame) : List ℚ :=
  frames.map (fun f =>
    match f.lm "right_wrist" with
    | some w => w.y
    | none => 1)

/-- KeyframeDetector._detect_ball_lowest: ball height proxy is right-wrist y
(0.0 for frames without a visible wrist); None when the series is empty or
its maximum is 0, else the first argmax. -/
def ball_heights (frames : List Frame) : List ℚ :=
  frames.map (fun f =>
    match f.lm "right_wrist" with
    | some w => w.y
    | none => 0)

def detect_ball_lowest (frames : List Frame) : Option ℕ :=
  let hs := ball_heights frames
  if hs = [] ∨ maxQ hs = 0 then none else some (argmaxQ hs)

/-- KeyframeDetector._detect_lift_start: first index from search_after whose
wrist height strictly decreases for four consecutive samples with a total
rise above 0.01. -/
def detect_lift_start (frames : List Frame) (search_after : ℕ) : Option ℕ :=
  let hs := wrist_heights frames
  (pyRange search_after (hs.length - 3)).find? (fun i =>
    decide (hs.getD (i+1) 0 < hs.getD i 0 ∧ hs.getD (i+2) 0 < hs.getD (i+1) 0 ∧
      hs.getD (i+3) 0 < hs.getD (i+2) 0 ∧ (1/100 : ℚ) < hs.getD i 0 - hs.getD (i+3) 0))

/-- Comparison of an optional distance with the running minimum, where none
plays the role of float('inf'). -/
def ltInf : Option ℚ → Option ℚ → Bool
  | none, _ => false
  | some _, none => true
  | some d, some m => decide (d < m)

/-- KeyframeDetector._detect_ball_at_height: distance of the wrist from the
target height per frame (none = float('inf') for frames missing any of the
five required joints). -/
def ball_height_distances (frames : List Frame) (height_type : String) : List (Option ℚ) :=
  frames.map (fun f =>
    match f.lm "right_wrist", f.lm "left_shoulder", f.lm "right_shoulder",
        f.lm "left_hip", f.lm "right_hip" with
    | some w, some ls, some rs, some lh, some rh =>
      let shoulder_y := (ls.y + rs.y) / 2
      let hip_y := (lh.y + rh.y) / 2
      let target_y :=
        if height_type = "chest" then shoulder_y + (hip_y - shoulder_y) * (33/100)
        else if height_type = "shoulder" then rs.y
        else 1
      some |w.y - target_y|
    | _, _, _, _, _ => none)

def detect_ball_at_height (frames : List Frame) (height_type : String)
    (search_after : ℕ) : Option ℕ :=
  let distances := ball_height_distances frames height_type
  ((pyRange search_after frames.length).foldl (fun st i =>
    if 0 < i ∧ ((getFrame frames i).lm "right_wrist").isSome then
      (if ltInf (distances.getD i none) st.1 then (distances.getD i none, some i) else st)
    else st) (none, none)).2

/-- KeyframeDetector._detect_midpoint on the two absolute indices (the source
also carries the frame payload, which the claims do not mention). -/
def detect_midpoint (idx1 idx2 : ℕ) : Option ℕ :=
  if idx2 ≤ idx1 then none else some ((idx1 + idx2) / 2)

/-- KeyframeDetector._detect_squat_deepest. -/
def detect_squat_deepest (frames : List Frame) : Option ℕ :=
  let ch := frames.map (fun f => f.com_height)
  if ch = [] ∨ maxQ ch = 0 then none else some (argmaxQ ch)

/-- KeyframeDetector._detect_elbow_max_bend. -/
def detect_elbow_max_bend (frames : List Frame) : Option ℕ :=
  let ea := frames.map (fun f => f.angleD "elbow_angle" 180)
  if ea = [] ∨ 180 ≤ minQ ea then none else some (argminQ ea)

/-- KeyframeDetector._detect_elbow_extension_max. -/
def detect_elbow_extension_max (frames : List Frame) : Option ℕ :=
  let ea := frames.map (fun f => f.angleD "elbow_angle" 180)
  let pos := (deltas ea).map (fun v => max 0 v)
  if pos = [] ∨ maxQ pos = 0 then none else some (argmaxQ pos)

/-- KeyframeDetector._detect_wrist_snap: argmax of wrist-minus-elbow height
over the second half of the window. -/
def detect_wrist_snap (frames : List Frame) : Option ℕ :=
  let diffs := frames.map (fun f =>
    match f.lm "right_wrist", f.lm "right_elbow" with
    | some w, some e => w.y - e.y
    | _, _ => -1)
  if diffs = [] ∨ maxQ diffs ≤ 0 then none
  else some (frames.length / 2 + argmaxQ (diffs.drop (frames.length / 2)))

/-- KeyframeDetector._detect_arm_full_extension. On an empty window the
source would call np.argmax on an empty array (a runtime error); the model
returns none there, a case no claim exercises. -/
def detect_arm_full_extension (frames : List Frame) : Option ℕ :=
  let ea := frames.map (fun f => f.angleD "elbow_angle" 180)
  match ea.findIdx? (fun a => decide (170 ≤ a)) with
  | some i => some i
  | none =>
    let idx := argmaxQ ea
    if 155 < ea.getD idx 0 then some idx else none

/-- KeyframeDetector._detect_leg_power_start. -/
def detect_leg_power_start (frames : List Frame) : Option ℕ :=
  let ka := frames.map (fun f => f.angleD "knee_angle" 180)
  let av := deltas ka
  match (pyRange 1 (av.length - 1)).find? (fun i =>
      decide (av.getD (i-1) 0 < 0 ∧ 0 ≤ av.getD i 0 ∧
        i + 1 < av.length ∧ 0 ≤ av.getD (i+1) 0)) with
  | some i => some i
  | none =>
    let pos := av.map (fun v => max 0 v)
    if 0 < maxQ pos then some (argmaxQ pos) else none

/-- Per-frame score of KeyframeDetector._detect_release, as a function of the
wrist height, the elbow angular velocity and the wrist velocity of the frame. -/
def release_score_of (wy ev wv : ℚ) : ℚ :=
  (1 - wy) * 40 + min (max 0 (ev * (7/2))) 35 +
    (if wv < 0 then min (|wv| * 250) 25 else 0)

/-- Score list of KeyframeDetector._detect_release: zeros up to search_after,
then the per-frame multi-factor score. -/
def release_scores (frames : List Frame) (search_after : ℕ) : List ℚ :=
  let wh := wrist_heights frames
  let ea := frames.map (fun f => f.angleD "elbow_angle" 180)
  let wv := frames.map (fun f => f.vel "right_wrist")
  let ev := deltas ea
  List.replicate search_after 0 ++ (pyRange search_after frames.length).map (fun i =>
    release_score_of (wh.getD i 0) (ev.getD i 0) (wv.getD i 0))

/-- KeyframeDetector._detect_release. -/
def detect_release (frames : List Frame) (search_after : ℕ) : Option ℕ :=
  let scores := release_scores frames search_after
  if scores = [] ∨ maxQ scores = 0 then none else some (argmaxQ scores)

/-- KeyframeDetector._detect_follow_through. -/
def detect_follow_through (frames : List Frame) : Option ℕ :=
  let hs := wrist_heights frames
  if hs = [] ∨ 1 ≤ minQ hs then none else some (argminQ hs)

/-- Name lookup in the keyframe map, keyframes.get(name). -/
def kfLookup (ks : List (String × ℕ)) (name : String) : Option ℕ :=
  (ks.find? (fun e => e.1 == name)).map (fun e => e.2)

/-- Insertion of an optional detection result into the keyframe map; a
detector returning None simply omits its keyframe. -/
def addOpt (ks : List (String × ℕ)) (name : String) : Option ℕ → List (String × ℕ)
  | some i => ks ++ [(name, i)]
  | none => ks

/-- KeyframeDetector._sort_by_time: stable ascending sort by frame index
(Python sorted is stable; insertion sort with a non-strict key comparison
preserves the relative order of equal keys the same way). -/
def sort_by_time (ks : List (String × ℕ)) : List (String × ℕ) :=
  List.insertionSort kfLE ks

/-- Optional midpoint stage: present only when both named keyframes are
already in the map. -/
def midOf (ks : List (String × ℕ)) (n1 n2 : String) : Option ℕ :=
  match kfLookup ks n1, kfLookup ks n2 with
  | some i1, some i2 => detect_midpoint i1 i2
  | _, _ => none

/-- Keyframe map of KeyframeDetector.detect_keyframes before the final sort,
in source insertion order. The anchor ball_lowest is inserted first (index 0
when no ball-lowest frame is found); every later detector runs on the window
frames[anchor:] and its window-relative result is re-based by adding the
anchor offset. -/
def keyframe_entries (frames : List Frame) : List (String × ℕ) :=
  let anchor := (detect_ball_lowest frames).getD 0
  let clipped := frames.drop anchor
  let ks : List (String × ℕ) := [("ball_lowest", anchor)]
  let ks := addOpt ks "squat_deepest" ((detect_squat_deepest clipped).map (· + anchor))
  let ks := addOpt ks "lift_start" ((detect_lift_start clipped 0).map (· + anchor))
  let lift_start_idx := (kfLookup ks "lift_start").getD anchor - anchor
  let ks := addOpt ks "ball_at_chest"
    ((detect_ball_at_height clipped "chest" lift_start_idx).map (· + anchor))
  let ks := addOpt ks "ball_rising_mid" (midOf ks "lift_start" "ball_at_chest")
  let ball_at_chest_idx := (kfLookup ks "ball_at_chest").getD anchor - anchor
  let ks := addOpt ks "ball_at_shoulder"
    ((detect_ball_at_height clipped "shoulder" ball_at_chest_idx).map (· + anchor))
  let ks := addOpt ks "elbow_max_bend" ((detect_elbow_max_bend clipped).map (· + anchor))
  let ks := addOpt ks "elbow_extension_max"
    ((detect_elbow_extension_max clipped).map (· + anchor))
  let ks := addOpt ks "wrist_snap" ((detect_wrist_snap clipped).map (· + anchor))
  let ks := addOpt ks "arm_full_extension"
    ((detect_arm_full_extension clipped).map (· + anchor))
  let ks := addOpt ks "leg_power_start" ((detect_leg_power_start clipped).map (· + anchor))
  let ks := addOpt ks "power_transfer" (midOf ks "leg_power_start" "elbow_max_bend")
  let ks := addOpt ks "release" ((detect_release clipped 0).map (· + anchor))
  let ks := addOpt ks "release_prepare" (midOf ks "wrist_snap" "release")
  let ks := addOpt ks "follow_through" ((detect_follow_through clipped).map (· + anchor))
  ks

/-- KeyframeDetector.detect_keyframes: build the keyframe map in dependency
order, then sort it ascending by absolute frame index. -/
def detect_keyframes (frames : List Frame) : List (String × ℕ) :=
  sort_by_time (keyframe_entries frames)

/-- Joints monitored by BasketballMetrics.detect_force_sequence. -/
def monitored_joints : List String :=
  ["right_ankle", "right_knee", "right_hip", "right_shoulder", "right_elbow", "right_wrist"]

/-- Analysis range of BasketballMetrics.detect_force_sequence: start at the
ball_lowest index when present (else 0), end at the release_point index when
present (else the length of the frame list). -/
def force_range (frames : List Frame) (keyframes : List (String × ℕ)) : ℕ × ℕ :=
  ((kfLookup keyframes "ball_lowest").getD 0,
   (kfLookup keyframes "release_point").getD frames.length)

/-- Per-joint (frame index, velocity) pairs collected by detect_force_sequence
over range(start_frame, min(end_frame, len(frames_data))); frames without a
detected pose or without a velocities dict contribute 0. -/
def joint_velocity_series (frames : List Frame) (joint : String) (s e : ℕ) :
    List (ℕ × ℚ) :=
  (pyRange s (min e frames.length)).map (fun i =>
    (i, if (getFrame frames i).pose_detected ∧ (getFrame frames i).velocities.isSome
        then (getFrame frames i).vel joint else 0))

/-- Primary initiation condition of detect_force_sequence at scan position
idx of a velocity series: increment at least 50 and velocity at least 20. -/
def initiation_hit (vels : List (ℕ × ℚ)) (idx : ℕ) : Prop :=
  50 ≤ (vels.getD idx (0, 0)).2 - (vels.getD (idx-1) (0, 0)).2 ∧
    20 ≤ (vels.getD idx (0, 0)).2

instance (vels : List (ℕ × ℚ)) (idx : ℕ) : Decidable (initiation_hit vels idx) :=
  inferInstanceAs (Decidable (_ ∧ _))

/-- Position of the velocity peak of a series (first occurrence). -/
def initiation_peak_idx (vels : List (ℕ × ℚ)) : ℕ := argmaxQ (vels.map (fun v => v.2))

/-- Fallback threshold of detect_force_sequence: 30 percent of the peak. -/
def initiation_threshold (vels : List (ℕ × ℚ)) : ℚ :=
  (vels.getD (initiation_peak_idx vels) (0, 0)).2 * (3/10)

/-- Initiation-frame search of detect_force_sequence for one joint: joints
with fewer than 3 samples are skipped; the primary scan looks for the first
index in range(1, len(velocities) - 1) whose velocity increment reaches the
acceleration threshold 50 while the velocity reaches the movement threshold
20; the fallback looks for the first index strictly before the velocity peak
whose velocity reaches 30 percent of the peak. The source additionally
records time/velocity/acceleration metadata for the found frame, which no
claim mentions. -/
def joint_initiation (vels : List (ℕ × ℚ)) : Option ℕ :=
  if vels.length < 3 then none
  else
    match (pyRange 1 (vels.length - 1)).find? (fun idx =>
        decide (initiation_hit vels idx)) with
    | some idx => some (vels.getD idx (0, 0)).1
    | none =>
      match (pyRange 0 (initiation_peak_idx vels)).find? (fun idx =>
          decide (initiation_threshold vels ≤ (vels.getD idx (0, 0)).2)) with
      | some idx => some (vels.getD idx (0, 0)).1
      | none => none

/-- BasketballMetrics.detect_force_sequence, reduced to the outputs the
claims mention: the per-joint initiation frames (initiation_times) and the
analysis range; the derived orderings, pair analyses and pattern
classification are not modelled. -/
def detect_force_sequence (frames : List Frame) (keyframes : List (String × ℕ)) :
    List (String × ℕ) × (ℕ × ℕ) :=
  let r := force_range frames keyframes
  (monitored_joints.filterMap (fun j =>
    (joint_initiation (joint_velocity_series frames j r.1 r.2)).map (fun f => (j, f))), r)

/-- Joint groups of BasketballMetrics.calculate_energy_transfer_efficiency. -/
def lower_body_joints : List String := ["right_ankle", "right_knee", "right_hip"]

def upper_body_joints : List String := ["right_shoulder", "right_elbow", "right_wrist"]

/-- Per-frame group average: numpy mean over the strictly positive velocity
samples of the group, 0 when none is positive. -/
def group_avg_velocity (f : Frame) (joints : List String) : ℚ :=
  let vels := joints.map (fun j => f.vel j)
  let valid := vels.filter (fun v => decide (0 < v))
  if valid = [] then 0 else valid.sum / valid.length

/-- Start frame of the energy-transfer analysis range. -/
def energy_start (keyframes : List (String × ℕ)) : ℕ :=
  (kfLookup keyframes "ball_lowest").getD 0

/-- End frame of the energy-transfer analysis range (len(frames) - 1 when the
release_point key is absent; an integer because it may be -1 on empty input). -/
def energy_end (frames : List Frame) (keyframes : List (String × ℕ)) : ℤ :=
  match kfLookup keyframes "release_point" with
  | some i => (i : ℤ)
  | none => (frames.length : ℤ) - 1

/-- Indices of range(start_frame, min(end_frame + 1, len(frames_data))) whose
frame has a detected pose and a velocities dict; both group series are
collected in lockstep over exactly these frames. -/
def energy_valid_idxs (frames : List Frame) (keyframes : List (String × ℕ)) : List ℕ :=
  (pyRange (energy_start keyframes)
      ((min (energy_end frames keyframes + 1) (frames.length : ℤ)).toNat)).filter
    (fun i => (getFrame frames i).pose_detected && (getFrame frames i).velocities.isSome)

def lower_series (frames : List Frame) (keyframes : List (String × ℕ)) : List ℚ :=
  (energy_valid_idxs frames keyframes).map
    (fun i => group_avg_velocity (getFrame frames i) lower_body_joints)

def upper_series (frames : List Frame) (keyframes : List (String × ℕ)) : List ℚ :=
  (energy_valid_idxs frames keyframes).map
    (fun i => group_avg_velocity (getFrame frames i) upper_body_joints)

/-- Result record of calculate_energy_transfer_efficiency (the joint-name
lists and keyframe labels repeated in the source dict are omitted). -/
structure EnergyResult where
  lower_body_peak_velocity : ℚ := 0
  upper_body_peak_velocity : ℚ := 0
  velocity_ratio : ℚ := 0
  transfer_timing : String := "unknown"
  lower_peak_frame : ℕ := 0
  upper_peak_frame : ℕ := 0
  timing_difference : ℤ := 0
  start_frame : ℕ := 0
  end_frame : ℤ := 0

/-- BasketballMetrics.calculate_energy_transfer_efficiency. -/
def calculate_energy_transfer_efficiency (frames : List Frame)
    (keyframes : List (String × ℕ)) : EnergyResult :=
  let start_frame := energy_start keyframes
  let end_frame := energy_end frames keyframes
  if end_frame ≤ (start_frame : ℤ) then
    { start_frame := start_frame, end_frame := end_frame }
  else
    let lower := lower_series frames keyframes
    let upper := upper_series frames keyframes
    if lower = [] ∨ upper = [] then
      { start_frame := start_frame, end_frame := end_frame }
    else
      let lower_peak := maxQ lower
      let upper_peak := maxQ upper
      let lower_peak_frame := start_frame + argmaxQ lower
      let upper_peak_frame := start_frame + argmaxQ upper
      let timing_difference : ℤ := (upper_peak_frame : ℤ) - (lower_peak_frame : ℤ)
      { lower_body_peak_velocity := lower_peak,
        upper_body_peak_velocity := upper_peak,
        velocity_ratio := if 0 < lower_peak then upper_peak / lower_peak else 0,
        transfer_timing :=
          if 3 < timing_difference then "sequential"
          else if 0 ≤ timing_difference then "synchronized"
          else "reversed",
        lower_peak_frame := lower_peak_frame,
        upper_peak_frame := upper_peak_frame,
        timing_difference := timing_difference,
        start_frame := start_frame,
        end_frame := end_frame }

/-- Pixel position of a joint in one frame, as used by calculate_velocity
(the x_pixel / y_pixel entries of a landmark; a missing sample is none). -/
structure PixelPos where
  x_pixel : ℤ
  y_pixel : ℤ
deriving DecidableEq

/-- One step of BasketballMetrics.calculate_velocity: Euclidean pixel
displacement between consecutive samples times fps, 0 when either sample is
missing. -/
noncomputable def step_velocity (fps : ℝ) : Option PixelPos → Option PixelPos → ℝ
  | some p, some c =>
    Real.sqrt (((c.x_pixel - p.x_pixel : ℤ) : ℝ) ^ 2 + ((c.y_pixel - p.y_pixel : ℤ) : ℝ) ^ 2) * fps
  | _, _ => 0

/-- Velocity list of calculate_velocity before smoothing: [0.0] followed by
one step per consecutive pair. -/
noncomputable def raw_velocities (positions : List (Option PixelPos)) (fps : ℝ) : List ℝ :=
  0 :: (pyRange 1 positions.length).map (fun i =>
    step_velocity fps (positions.getD (i-1) none) (positions.getD i none))

/-- numpy mean of a list slice. -/
noncomputable def listMean (l : List ℝ) : ℝ := l.sum / l.length

/-- BasketballMetrics._smooth_data: centered moving average whose window is
clipped at the sequence boundaries; the input is returned unchanged when the
window is below 2 or longer than the data. -/
noncomputable def smooth_data (data : List ℝ) (window_size : ℕ) : List ℝ :=
  if window_size < 2 ∨ data.length < window_size then data
  else
    (List.range data.length).map (fun i =>
      let s := i - window_size / 2
      let e := min data.length (i + window_size / 2 + 1)
      listMean ((data.drop s).take (e - s)))

/-- BasketballMetrics.calculate_velocity. -/
noncomputable def calculate_velocity (positions : List (Option PixelPos)) (fps : ℝ)
    (smoothing : ℕ) : List ℝ :=
  if positions.length < 2 then List.replicate positions.length 0
  else
    let velocities := raw_velocities positions fps
    if 1 < smoothing then smooth_data velocities smoothing else velocities

/-- Normalized 2D point, the x/y entries consumed by calculate_angle; a
missing input point is none (the source also maps a KeyError or TypeError on
malformed dicts to None, which the typed model cannot express). -/
structure Pt where
  x : ℚ
  y : ℚ
deriving DecidableEq

/-- BasketballMetrics.calculate_angle: vertex angle at p2 in degrees, with
the cosine clipped to [-1, 1] before arccos and an epsilon of 1e-6 added to
the norm product. -/
noncomputable def calculate_angle : Option Pt → Option Pt → Option Pt → Option ℝ
  | some p1, some p2, some p3 =>
    let v1x := ((p1.x - p2.x : ℚ) : ℝ)
    let v1y := ((p1.y - p2.y : ℚ) : ℝ)
    let v2x := ((p3.x - p2.x : ℚ) : ℝ)
    let v2y := ((p3.y - p2.y : ℚ) : ℝ)
    let dot := v1x * v2x + v1y * v2y
    let n1 := Real.sqrt (v1x ^ 2 + v1y ^ 2)
    let n2 := Real.sqrt (v2x ^ 2 + v2y ^ 2)
    let cos_angle := dot / (n1 * n2 + 1/1000000)
    let clipped := min 1 (max (-1) cos_angle)
    some (Real.arccos clipped * 180 / Real.pi)
  | _, _, _ => none

/-- Error kinds of backend/exceptions.py: PoseDetectionError,
KeyframeDetectionError and InsufficientFramesError (which carries the
detected frame count), below the VideoAnalysisError base. -/
inductive VideoAnalysisError where
  | poseDetection : VideoAnalysisError
  | keyframeDetection : VideoAnalysisError
  | insufficientFrames (detected_frames : ℕ) : VideoAnalysisError
  | generic (msg : String) : VideoAnalysisError

/-- Aggregate produced by BasketballShotAnalyzer.analyze_frames, reduced to
the fields the claims mention (frames, rhythm data, config echo and images
are omitted). -/
structure AnalysisResults where
  keyframes : List (String × ℕ)
  total_frames : ℕ
  start_frame : ℕ
  end_frame : ℤ
  force_initiations : List (String × ℕ)
  energy : EnergyResult

/-- Control flow of BasketballShotAnalyzer.analyze_frames downstream of pose
annotation (the frames arrive already pose-annotated): keyframe detection,
force-sequence and energy-transfer analysis, then assembly of the result.
The source contains no frame-count check and no raise statement, so the
model never produces an error value. -/
def analyze_frames (frames : List Frame) (fps : ℚ) :
    Except VideoAnalysisError AnalysisResults :=
  let keyframes := detect_keyframes frames
  let force := detect_force_sequence frames keyframes
  let energy := calculate_energy_transfer_efficiency frames keyframes
  let ball_lowest_frame := (kfLookup keyframes "ball_lowest").getD 0
  let release_frame : ℤ :=
    match kfLookup keyframes "release_point" with
    | some i => (i : ℤ)
    | none => (frames.length : ℤ) - 1
  Except.ok
    { keyframes := keyframes,
      total_frames := frames.length,
      start_frame := ball_lowest_frame,
      end_frame := release_frame,
      force_initiations := force.1,
      energy := energy }

/-- Right-wrist normalized y of a frame (0 when the wrist is not visible),
used to state the anchor claims. -/
def wristYD (f : Frame) : ℚ := ((f.lm "right_wrist").map Landmark.y).getD 0

/-- Visibility of the right wrist in a frame. -/
def wristVisible (f : Frame) : Bool := ((f.lm "right_wrist").isSome : Bool)

/-- Definition following the specification text, not the source: the anchor
is the argmax of right-wrist y over the frames where the wrist is visible
(first occurrence on ties); absent when no frame has a visible wrist. -/
def anchor_spec (frames : List Frame) : Option ℕ :=
  (List.range frames.length).foldl (fun best i =>
    if wristVisible (getFrame frames i) then
      match best with
      | none => some i
      | some b =>
        if wristYD (getFrame frames b) < wristYD (getFrame frames i) then some i else some b
    else best) none

/-- Per-frame release score following the claim text:
40 x (1 - wrist_y) + min(35, max(0, elbow_angular_velocity x 3.5)) plus, only
when the wrist is moving up (negative wrist velocity), min(25, |wrist_velocity| x 250). -/
def release_score_spec (frames : List Frame) (i : ℕ) : ℚ :=
  40 * (1 - (wrist_heights frames).getD i 0) +
  min 35 (max 0 ((deltas (frames.map (fun f => f.angleD "elbow_angle" 180))).getD i 0 * (7/2))) +
  (if (frames.map (fun f => f.vel "right_wrist")).getD i 0 < 0
   then min 25 (|(frames.map (fun f => f.vel "right_wrist")).getD i 0| * 250)
   else 0)

/-- Release keyframe following the claim text: argmax of the per-frame score
over frames searched forward from the given start index, absent when the
maximal score is 0. -/
def release_spec (frames : List Frame) (start : ℕ) : Option ℕ :=
  let scores := List.replicate start 0 ++
    (pyRange start frames.length).map (release_score_spec frames)
  if maxQ scores = 0 then none else some (argmaxQ scores)

/-- Initiation frame following the claim text: the first index i in the range
(i has a predecessor) where the velocity increment reaches 50 and the
velocity reaches 20; if none exists, the first index strictly before the
velocity peak where the velocity first reaches 30 percent of the peak; else
absent. -/
def initiation_claim (vels : List (ℕ × ℚ)) : Option ℕ :=
  match (pyRange 1 vels.length).find? (fun idx =>
      decide (50 ≤ (vels.getD idx (0, 0)).2 - (vels.getD (idx-1) (0, 0)).2 ∧
        20 ≤ (vels.getD idx (0, 0)).2)) with
  | some idx => some (vels.getD idx (0, 0)).1
  | none =>
    let p := argmaxQ (vels.map (fun v => v.2))
    let threshold := (vels.getD p (0, 0)).2 * (3/10)
    match (pyRange 0 p).find? (fun idx =>
        decide (threshold ≤ (vels.getD idx (0, 0)).2)) with
    | some idx => some (vels.getD idx (0, 0)).1
    | none => none

/-- Frame with a detected pose and only the right wrist landmark. -/
def mkWristFrame (y : ℚ) : Frame :=
  { pose_detected := true,
    landmarks := fun j => if j = "right_wrist" then some ⟨y⟩ else none }

/-- Frame with a detected pose and a velocities dict giving the right ankle
the velocity v and every other joint 0. -/
def mkAnkleFrame (v : ℚ) : Frame :=
  { pose_detected := true,
    velocities := some (fun j => if j = "right_ankle" then v else 0) }

/-- Frame with a detected pose and a velocities dict giving every lower-body
joint the velocity lo and every upper-body joint the velocity up. -/
def mkVelFrame (lo up : ℚ) : Frame :=
  { pose_detected := true,
    velocities := some (fun j =>
      if j ∈ lower_body_joints then lo
      else if j ∈ upper_body_joints then up else 0) }

/-- Input for the C1 evaluation: four frames whose wrist heights are
0.9, 0.8, 0.1, 0.8, so that the anchor is frame 0 and the release keyframe is
detected at frame 2 (strictly before the last frame). -/
def framesC1 : List Frame :=
  [mkWristFrame (9/10), mkWristFrame (8/10), mkWristFrame (1/10), mkWristFrame (8/10)]

/-- Input for the C2 counterexample: six frames whose wrist heights are
0.9, 0.3, 0.5, 0.45, 0.4, 0.35; the anchor is frame 0, lift_start is detected
at frame 2, and the release score is maximal at frame 1. -/
def framesC2 : List Frame :=
  [mkWristFrame (9/10), mkWristFrame (3/10), mkWristFrame (5/10),
   mkWristFrame (45/100), mkWristFrame (4/10), mkWristFrame (35/100)]

/-- Input for the C3 counterexample: the wrist is invisible in frame 0 and
visible with y = 0 (top edge of the image) in frame 1. -/
def framesC3 : List Frame := [{}, mkWristFrame 0]

/-- Input for the C7 counterexample: ankle velocities 0, 10, 100 over a
three-frame analysis range. -/
def framesC7 : List Frame := [mkAnkleFrame 0, mkAnkleFrame 10, mkAnkleFrame 100]

def keyframesC7 : List (String × ℕ) := [("ball_lowest", 0)]

/-- Input realizing the C8 scenario: 15 frames, lower-body average velocity
peaking at 100 px/s in frame 10, upper-body average peaking at 250 px/s in
frame 14, window starting at frame 0. -/
def framesC8 : List Frame :=
  List.replicate 10 (mkVelFrame 50 100) ++ [mkVelFrame 100 100] ++
    List.replicate 3 (mkVelFrame 50 100) ++ [mkVelFrame 50 250]

def keyframesC8 : List (String × ℕ) := [("ball_lowest", 0)]

/-- Input for the C6 evaluation: a single pose-detected frame (wrist at
y = 0.5, elbow angle 90), i.e. a usable frame count of 1, below any sensible
configured minimum. -/
def frameC6 : Frame :=
  { pose_detected := true,
    landmarks := fun j => if j = "right_wrist" then some ⟨1/2⟩ else none,
    angles := fun a => if a = "elbow_angle" then some 90 else none }

/-- Input for the C5 counterexample: three present samples moving 30 pixels
between the first two frames. -/
def positionsC5 : List (Option PixelPos) :=
  [some ⟨0, 0⟩, some ⟨30, 0⟩, some ⟨30, 0⟩]

/-- Input for the C10 counterexample: two present samples 5 pixels apart. -/
def positionsC10 : List (Option PixelPos) := [some ⟨0, 0⟩, some ⟨3, 4⟩]

/-- Invariant carried by the keyframe map under construction: the anchor
entry ("ball_lowest", a) is the first entry inserted, and every entry's
absolute index is at least the anchor index. -/
def kfInv (a : ℕ) (ks : List (String × ℕ)) : Prop :=
  ks.head? = some ("ball_lowest", a) ∧ ∀ e ∈ ks, a ≤ e.2
theorem le_maxQ {l : List ℚ} {a : ℚ} (h : a ∈ l) : a ≤ maxQ l := by
  induction l with
  | nil => cases h
  | cons x xs ih =>
    cases xs with
    | nil =>
      rcases List.mem_singleton.mp h with rfl
      exact le_refl _
    | cons y ys =>
      rcases List.mem_cons.mp h with rfl | h2
      · exact le_max_left _ _
      · exact le_trans (ih h2) (le_max_right _ _)

theorem maxQ_mem {l : List ℚ} (h : l ≠ []) : maxQ l ∈ l := by
  induction l with
  | nil => exact absurd rfl h
  | cons x xs ih =>
    cases xs with
    | nil => simp [maxQ]
    | cons y ys =>
      rcases max_choice x (maxQ (y :: ys)) with h1 | h1
      · rw [maxQ, h1]; exact List.mem_cons_self _ _
      · rw [maxQ, h1]
        exact List.mem_cons_of_mem _ (ih (by simp))

theorem argmaxQ_lt_length {l : List ℚ} (h : l ≠ []) : argmaxQ l < l.length := by
  induction l with
  | nil => exact absurd rfl h
  | cons x xs ih =>
    rw [argmaxQ]
    by_cases hc : maxQ (x :: xs) ≤ x
    · simp [hc]
    · rw [if_neg hc]
      have hxs : xs ≠ [] := by
        intro he; subst he; exact hc (le_refl x)
      simpa [Nat.succ_lt_succ_iff] using ih hxs

theorem getD_argmaxQ {l : List ℚ} (h : l ≠ []) : l.getD (argmaxQ l) 0 = maxQ l := by
  induction l with
  | nil => exact absurd rfl h
  | cons x xs ih =>
    rw [argmaxQ]
    by_cases hc : maxQ (x :: xs) ≤ x
    · have hx : x ≤ maxQ (x :: xs) := le_maxQ (List.mem_cons_self _ _)
      simp [le_antisymm hc hx]
    · rw [if_neg hc]
      have hxs : xs ≠ [] := by
        intro he; subst he; exact hc (le_refl x)
      have hmx : maxQ (x :: xs) = maxQ xs := by
        cases xs with
        | nil => exact absurd rfl hxs
        | cons y ys =>
          rcases max_choice x (maxQ (y :: ys)) with h1 | h1
          · exact absurd (le_of_eq (by rw [maxQ, h1])) hc
          · rw [maxQ, h1]
      simp only [List.getD_cons_succ]
      rw [ih hxs, hmx]

theorem getD_lt_maxQ_of_lt_argmaxQ {l : List ℚ} {j : ℕ} (h : j < argmaxQ l) :
    l.getD j 0 < maxQ l := by
  induction l generalizing j with
  | nil => simp [argmaxQ] at h
  | cons x xs ih =>
    rw [argmaxQ] at h
    by_cases hc : maxQ (x :: xs) ≤ x
    · rw [if_pos hc] at h; exact absurd h (Nat.not_lt_zero j)
    · rw [if_neg hc] at h
      have hxs : xs ≠ [] := by
        intro he; subst he; exact hc (le_refl x)
      have hmx : maxQ (x :: xs) = maxQ xs := by
        cases xs with
        | nil => exact absurd rfl hxs
        | cons y ys =>
          rcases max_choice x (maxQ (y :: ys)) with h1 | h1
          · rw [maxQ, h1] at hc; exact absurd (le_refl x) hc
          · rw [maxQ, h1]
      cases j with
      | zero =>
        simp only [List.getD_cons_zero]
        exact lt_of_not_le hc
      | succ k =>
        simp only [List.getD_cons_succ]
        rw [hmx]
        exact ih (Nat.lt_of_succ_lt_succ h)

theorem find?_range'_eq_some {p : ℕ → Bool} {a n m : ℕ}
    (h : (List.range' a n).find? p = some m) :
    a ≤ m ∧ m < a + n ∧ p m = true ∧ ∀ j, a ≤ j → j < m → p j = false := by
  induction n generalizing a with
  | zero => simp at h
  | succ n ih =>
    rw [List.range'_succ, List.find?_cons] at h
    cases hp : p a with
    | true =>
      rw [hp] at h
      cases h
      exact ⟨le_refl _, by omega, hp, fun j h1 h2 => absurd (lt_of_le_of_lt h1 h2) (lt_irrefl _)⟩
    | false =>
      rw [hp] at h
      obtain ⟨h1, h2, h3, h4⟩ := ih h
      refine ⟨by omega, by omega, h3, fun j hj1 hj2 => ?_⟩
      rcases Nat.eq_or_lt_of_le hj1 with rfl | hj3
      · exact hp
      · exact h4 j hj3 hj2

theorem find?_range'_eq_none {p : ℕ → Bool} {a n : ℕ}
    (h : (List.range' a n).find? p = none) :
    ∀ j, a ≤ j → j < a + n → p j = false := by
  intro j h1 h2
  have hj : j ∈ List.range' a n := by
    rw [List.mem_range']
    exact ⟨j - a, by omega, by omega⟩
  have := List.find?_eq_none.mp h j hj
  simpa using this

theorem pyRange_find?_eq_some {p : ℕ → Bool} {a b m : ℕ}
    (h : (pyRange a b).find? p = some m) :
    a ≤ m ∧ m < b ∧ p m = true ∧ ∀ j, a ≤ j → j < m → p j = false := by
  obtain ⟨h1, h2, h3, h4⟩ := find?_range'_eq_some h
  exact ⟨h1, by omega, h3, h4⟩

theorem pyRange_find?_eq_none {p : ℕ → Bool} {a b : ℕ}
    (h : (pyRange a b).find? p = none) :
    ∀ j, a ≤ j → j < b → p j = false := by
  intro j h1 h2
  exact find?_range'_eq_none h j h1 (by unfold pyRange at *; omega)

theorem pyRange_getElem? {a b k : ℕ} (h : k < b - a) :
    (pyRange a b)[k]? = some (a + k) := by
  unfold pyRange
  simpa using List.getElem?_range' a 1 h

theorem mem_sort_by_time {ks : List (String × ℕ)} {e : String × ℕ} :
    e ∈ sort_by_time ks ↔ e ∈ ks :=
  (List.perm_insertionSort kfLE ks).mem_iff

theorem sort_by_time_sorted (ks : List (String × ℕ)) :
    List.Pairwise kfLE (sort_by_time ks) :=
  List.sorted_insertionSort kfLE ks

theorem orderedInsert_of_le {h : String × ℕ} {s : List (String × ℕ)}
    (hle : ∀ e ∈ s, h.2 ≤ e.2) : List.orderedInsert kfLE h s = h :: s := by
  cases s with
  | nil => rfl
  | cons b u =>
    simp only [List.orderedInsert]
    rw [if_pos (show kfLE h b from hle b (List.mem_cons_self _ _))]

theorem sort_by_time_head {ks : List (String × ℕ)} {h : String × ℕ}
    (hh : ks.head? = some h) (hmin : ∀ e ∈ ks, h.2 ≤ e.2) :
    (sort_by_time ks).head? = some h := by
  cases ks with
  | nil => simp at hh
  | cons a t =>
    simp only [List.head?] at hh
    injection hh with hh
    subst hh
    unfold sort_by_time
    rw [List.insertionSort]
    rw [orderedInsert_of_le]
    · rfl
    · intro e he
      exact hmin e (List.mem_cons_of_mem _ ((List.perm_insertionSort kfLE t).mem_iff.mp he))

theorem kfInv_addOpt {a : ℕ} {ks : List (String × ℕ)} {n : String} {v : Option ℕ}
    (h : kfInv a ks) (hv : ∀ i, v = some i → a ≤ i) : kfInv a (addOpt ks n v) := by
  cases v with
  | none => exact h
  | some i =>
    obtain ⟨h1, h2⟩ := h
    constructor
    · show (ks ++ [(n, i)]).head? = some ("ball_lowest", a)
      rw [List.head?_append, h1]
      rfl
    · intro e he
      rcases List.mem_append.mp he with he | he
      · exact h2 e he
      · rcases List.mem_singleton.mp he with rfl
        exact hv i rfl

theorem kfInv_add_rebased {a : ℕ} {ks : List (String × ℕ)} {n : String} {o : Option ℕ}
    (h : kfInv a ks) : kfInv a (addOpt ks n (o.map (· + a))) := by
  apply kfInv_addOpt h
  intro i hi
  cases o with
  | none => exact Option.noConfusion hi
  | some j =>
    rw [Option.map_some'] at hi
    injection hi with hi
    omega

theorem kfLookup_bound {a : ℕ} {ks : List (String × ℕ)} {n : String} {i : ℕ}
    (h2 : ∀ e ∈ ks, a ≤ e.2) (h : kfLookup ks n = some i) : a ≤ i := by
  unfold kfLookup at h
  cases hf : ks.find? (fun e => e.1 == n) with
  | none => rw [hf] at h; exact Option.noConfusion h
  | some e =>
    rw [hf, Option.map_some'] at h
    injection h with h
    subst h
    exact h2 e (List.mem_of_find?_eq_some hf)

theorem kfInv_add_mid {a : ℕ} {ks : List (String × ℕ)} {n n1 n2 : String}
    (h : kfInv a ks) : kfInv a (addOpt ks n (midOf ks n1 n2)) := by
  apply kfInv_addOpt h
  intro i hi
  cases h1 : kfLookup ks n1 with
  | none =>
    have hm : midOf ks n1 n2 = none := by unfold midOf; rw [h1]
    rw [hm] at hi
    exact Option.noConfusion hi
  | some i1 =>
    cases h2 : kfLookup ks n2 with
    | none =>
      have hm : midOf ks n1 n2 = none := by unfold midOf; rw [h1, h2]
      rw [hm] at hi
      exact Option.noConfusion hi
    | some i2 =>
      have hm : midOf ks n1 n2 = detect_midpoint i1 i2 := by unfold midOf; rw [h1, h2]
      rw [hm] at hi
      unfold detect_midpoint at hi
      by_cases hc : i2 ≤ i1
      · rw [if_pos hc] at hi; exact Option.noConfusion hi
      · rw [if_neg hc] at hi
        injection hi with hi
        have ha1 : a ≤ i1 := kfLookup_bound h.2 h1
        omega

theorem kfInv_entries (frames : List Frame) :
    kfInv ((detect_ball_lowest frames).getD 0) (keyframe_entries frames) := by
  have hbase : kfInv ((detect_ball_lowest frames).getD 0)
      [("ball_lowest", (detect_ball_lowest frames).getD 0)] := by
    refine ⟨rfl, ?_⟩
    intro e he
    rcases List.mem_singleton.mp he with rfl
    exact le_refl _
  simp only [keyframe_entries]
  exact kfInv_add_rebased (kfInv_add_mid (kfInv_add_rebased (kfInv_add_mid
    (kfInv_add_rebased (kfInv_add_rebased (kfInv_add_rebased (kfInv_add_rebased
      (kfInv_add_rebased (kfInv_add_rebased (kfInv_add_mid (kfInv_add_rebased
        (kfInv_add_rebased (kfInv_add_rebased hbase)))))))))))))

theorem getD_mem_of_lt {l : List ℚ} {i : ℕ} (h : i < l.length) : l.getD i 0 ∈ l := by
  rw [List.getD_eq_getElem l 0 h]
  exact List.getElem_mem h

theorem getFrame_eq {frames : List Frame} {i : ℕ} (h : i < frames.length) :
    getFrame frames i = frames[i] :=
  List.getD_eq_getElem frames {} h

theorem ball_heights_length (frames : List Frame) :
    (ball_heights frames).length = frames.length :=
  List.length_map _ _

theorem ball_heights_getD {frames : List Frame} {i : ℕ} (h : i < frames.length) :
    (ball_heights frames).getD i 0 =
      if wristVisible (getFrame frames i) then wristYD (getFrame frames i) else 0 := by
  unfold ball_heights
  simp only [List.getD_eq_getElem?_getD, List.getElem?_map, List.getElem?_eq_getElem h,
    Option.map_some', Option.getD_some, getFrame_eq h]
  cases hlm : (frames[i]).lm "right_wrist" with
  | none => simp [wristVisible, hlm]
  | some w => simp [wristVisible, wristYD, hlm]

theorem ball_lowest_mem_detect_keyframes (frames : List Frame) :
    ("ball_lowest", (detect_ball_lowest frames).getD 0) ∈ detect_keyframes frames := by
  have h := (kfInv_entries frames).1
  apply mem_sort_by_time.mpr
  cases hk : keyframe_entries frames with
  | nil => rw [hk] at h; exact Option.noConfusion h
  | cons x t =>
    rw [hk] at h
    simp only [List.head?] at h
    injection h with h
    rw [h]
    exact List.mem_cons_self _ _

/-- Claim C4: for every frame sequence, the keyframe map returned by
detect_keyframes is ordered ascending by absolute index, every produced
keyframe has index at least ball_lowest.index, and the ball_lowest anchor is
the first entry of the map (hence of minimal index). -/
theorem c4_detect_keyframes_final_invariant (frames : List Frame) :
    List.Pairwise kfLE (detect_keyframes frames) ∧
    (∀ e ∈ detect_keyframes frames, (detect_ball_lowest frames).getD 0 ≤ e.2) ∧
    (detect_keyframes frames).head? =
      some ("ball_lowest", (detect_ball_lowest frames).getD 0) := by
  obtain ⟨h1, h2⟩ := kfInv_entries frames
  refine ⟨sort_by_time_sorted _, ?_, ?_⟩
  · intro e he
    exact h2 e (mem_sort_by_time.mp he)
  · exact sort_by_time_head h1 (fun e he => h2 e he)

/-- Claim C3 (amended): whenever some frame has a visible right wrist with
positive normalized y, the anchor is the first argmax of wrist y over the
visible frames, exactly as the claim states; and, under the data model's
normalized coordinates (visible wrist y is nonnegative), whenever no frame
has a visible wrist with positive y (in particular when no wrist is visible
at all) the detector finds no ball-lowest frame and the pipeline falls back
to frame 0 as the anchor, because invisible frames enter the scanned series
with height 0 and the detector bails out when the series maximum is 0. -/
theorem c3_ball_lowest_amended (frames : List Frame) :
    ((∃ i, i < frames.length ∧ wristVisible (getFrame frames i) ∧
        0 < wristYD (getFrame frames i)) →
      ∃ j, detect_ball_lowest frames = some j ∧ j < frames.length ∧
        wristVisible (getFrame frames j) ∧
        (∀ i, i < frames.length → wristVisible (getFrame frames i) →
          wristYD (getFrame frames i) ≤ wristYD (getFrame frames j)) ∧
        (∀ i, i < j → wristVisible (getFrame frames i) →
          wristYD (getFrame frames i) < wristYD (getFrame frames j)) ∧
        ("ball_lowest", j) ∈ detect_keyframes frames) ∧
    ((∀ i, i < frames.length → wristVisible (getFrame frames i) →
        0 ≤ wristYD (getFrame frames i)) →
      (∀ i, i < frames.length → wristVisible (getFrame frames i) →
        ¬ 0 < wristYD (getFrame frames i)) →
      detect_ball_lowest frames = none ∧
      (detect_keyframes frames).head? = some ("ball_lowest", 0)) := by
  constructor
  · intro h
    obtain ⟨i, hi, hvis, hpos⟩ := h
    have hlen : (ball_heights frames).length = frames.length := ball_heights_length frames
    have hne : ball_heights frames ≠ [] := by
      intro he
      rw [he, List.length_nil] at hlen
      omega
    have hgetDi : (ball_heights frames).getD i 0 = wristYD (getFrame frames i) := by
      rw [ball_heights_getD hi, if_pos hvis]
    have hmaxpos : 0 < maxQ (ball_heights frames) := by
      calc 0 < wristYD (getFrame frames i) := hpos
      _ = (ball_heights frames).getD i 0 := hgetDi.symm
      _ ≤ maxQ (ball_heights frames) := le_maxQ (getD_mem_of_lt (by omega))
    have hdet : detect_ball_lowest frames = some (argmaxQ (ball_heights frames)) := by
      unfold detect_ball_lowest
      rw [if_neg]
      push_neg
      exact ⟨hne, ne_of_gt hmaxpos⟩
    set j := argmaxQ (ball_heights frames) with hj
    have hjlt : j < frames.length := by
      have := argmaxQ_lt_length hne
      omega
    have hgetDj : (ball_heights frames).getD j 0 = maxQ (ball_heights frames) :=
      getD_argmaxQ hne
    have hvisj : wristVisible (getFrame frames j) := by
      by_contra hv
      rw [ball_heights_getD hjlt, if_neg hv] at hgetDj
      exact absurd hgetDj.symm (ne_of_gt hmaxpos)
    have hyj : wristYD (getFrame frames j) = maxQ (ball_heights frames) := by
      rw [ball_heights_getD hjlt, if_pos hvisj] at hgetDj
      exact hgetDj
    refine ⟨j, hdet, hjlt, hvisj, ?_, ?_, ?_⟩
    · intro k hk hvk
      have : (ball_heights frames).getD k 0 = wristYD (getFrame frames k) := by
        rw [ball_heights_getD hk, if_pos hvk]
      rw [← this, hyj]
      exact le_maxQ (getD_mem_of_lt (by omega))
    · intro k hk hvk
      have hklen : k < frames.length := by omega
      have : (ball_heights frames).getD k 0 = wristYD (getFrame frames k) := by
        rw [ball_heights_getD hklen, if_pos hvk]
      rw [← this, hyj]
      exact getD_lt_maxQ_of_lt_argmaxQ hk
    · have := ball_lowest_mem_detect_keyframes frames
      rw [hdet] at this
      exact this
  · intro h0 hnp
    have hzero : ∀ i, i < frames.length → (ball_heights frames).getD i 0 = 0 := by
      intro i hi
      rw [ball_heights_getD hi]
      by_cases hv : wristVisible (getFrame frames i)
      · rw [if_pos hv]
        exact le_antisymm (not_lt.mp (hnp i hi hv)) (h0 i hi hv)
      · rw [if_neg hv]
    have hdet : detect_ball_lowest frames = none := by
      by_cases he : ball_heights frames = []
      · unfold detect_ball_lowest
        rw [if_pos (Or.inl he)]
      · have hmax : maxQ (ball_heights frames) = 0 := by
          obtain ⟨i, hilt, hget⟩ := List.mem_iff_getElem.mp (maxQ_mem he)
          have hlen : (ball_heights frames).length = frames.length :=
            ball_heights_length frames
          have hz := hzero i (by omega)
          rw [List.getD_eq_getElem _ 0 hilt] at hz
          rw [← hget]
          exact hz
        unfold detect_ball_lowest
        rw [if_pos (Or.inr hmax)]
    refine ⟨hdet, ?_⟩
    have hk := kfInv_entries frames
    have hhead := sort_by_time_head hk.1 (fun e he => hk.2 e he)
    show (sort_by_time (keyframe_entries frames)).head? = some ("ball_lowest", 0)
    rw [hhead, hdet]
    rfl

/-- Witness for the amended C3 claim: a one-frame input with a visible wrist
at y = 1/2 exercises the argmax branch, and framesC3 (one invisible frame and
one visible wrist at y = 0) exercises the frame-0 fallback branch. -/
theorem c3_ball_lowest_amended_witness :
    (∃ j, detect_ball_lowest [mkWristFrame (1/2)] = some j ∧
      j < [mkWristFrame (1/2)].length ∧
      wristVisible (getFrame [mkWristFrame (1/2)] j) ∧
      (∀ i, i < [mkWristFrame (1/2)].length → wristVisible (getFrame [mkWristFrame (1/2)] i) →
        wristYD (getFrame [mkWristFrame (1/2)] i) ≤ wristYD (getFrame [mkWristFrame (1/2)] j)) ∧
      (∀ i, i < j → wristVisible (getFrame [mkWristFrame (1/2)] i) →
        wristYD (getFrame [mkWristFrame (1/2)] i) < wristYD (getFrame [mkWristFrame (1/2)] j)) ∧
      ("ball_lowest", j) ∈ detect_keyframes [mkWristFrame (1/2)]) ∧
    (detect_ball_lowest framesC3 = none ∧
      (detect_keyframes framesC3).head? = some ("ball_lowest", 0)) :=
  ⟨(c3_ball_lowest_amended [mkWristFrame (1/2)]).1
      ⟨0, by decide, by with_unfolding_all decide, by with_unfolding_all decide⟩,
   (c3_ball_lowest_amended framesC3).2
      (by with_unfolding_all decide) (by with_unfolding_all decide)⟩

/-- Counterexample to claim C3 as stated: in framesC3 the wrist is visible in
exactly one frame (frame 1, at y = 0), so the claim predicts anchor index 1;
the code returns no ball-lowest detection and falls back to frame 0. -/
theorem c3_ball_lowest_cex :
    framesC3.length = 2 ∧
    wristVisible (getFrame framesC3 1) ∧ ¬ wristVisible (getFrame framesC3 0) ∧
    anchor_spec framesC3 = some 1 ∧
    detect_ball_lowest framesC3 = none ∧
    (detect_keyframes framesC3).head? = some ("ball_lowest", 0) := by
  with_unfolding_all decide

/-- Claim C1 evaluated on the code: detect_keyframes stores the release
keyframe under the key "release", while detect_force_sequence and
calculate_energy_transfer_efficiency look up the key "release_point", which
the detector never emits. On framesC1 the release keyframe is present at
frame 2, yet the force-sequence range ends at the sequence length 4 and the
energy-transfer range ends at length - 1 = 3 — both analyzers extend to the
sequence end instead of stopping at the release index. -/
theorem c1_release_key_mismatch :
    kfLookup (detect_keyframes framesC1) "release" = some 2 ∧
    kfLookup (detect_keyframes framesC1) "release_point" = none ∧
    framesC1.length = 4 ∧
    force_range framesC1 (detect_keyframes framesC1) = (0, 4) ∧
    (detect_force_sequence framesC1 (detect_keyframes framesC1)).2 = (0, 4) ∧
    energy_end framesC1 (detect_keyframes framesC1) = 3 ∧
    (calculate_energy_transfer_efficiency framesC1 (detect_keyframes framesC1)).end_frame = 3 := by
  with_unfolding_all decide

/-- Claim C6 evaluated on the code: InsufficientFramesError is declared in
backend/exceptions.py but raised nowhere; analyze_frames performs no
usable-frame-count check (no minimum is configured anywhere), so on an input
with a single usable frame the analysis completes normally instead of
failing with the distinct insufficient-frames error kind. -/
theorem c6_no_insufficient_frames_check :
    ([frameC6].filter (fun f => f.pose_detected)).length = 1 ∧
    (analyze_frames [frameC6] 30).isOk = true := by
  with_unfolding_all decide

theorem release_score_of_spec (wy ev wv : ℚ) :
    release_score_of wy ev wv =
      40 * (1 - wy) + min 35 (max 0 (ev * (7/2))) +
        (if wv < 0 then min 25 (|wv| * 250) else 0) := by
  unfold release_score_of
  rw [mul_comm (1 - wy) 40, min_comm (max 0 (ev * (7/2))) 35, min_comm (|wv| * 250) 25]

theorem release_scores_zero_length (frames : List Frame) :
    (release_scores frames 0).length = frames.length := by
  simp [release_scores, pyRange]

theorem release_scores_zero_getD {frames : List Frame} {i : ℕ} (h : i < frames.length) :
    (release_scores frames 0).getD i 0 = release_score_spec frames i := by
  unfold release_scores
  simp only [List.replicate, List.nil_append]
  rw [List.getD_eq_getElem?_getD, List.getElem?_map,
    pyRange_getElem? (show i < frames.length - 0 by omega)]
  simp only [Option.map_some', Option.getD_some, Nat.zero_add]
  rw [release_score_of_spec]
  rfl

/-- Claim C2 (amended): within a window, the per-frame release score is
exactly the claim's formula, and the release keyframe is the first argmax of
that score over the frames searched forward from the window start — the
pipeline always invokes the detector with search offset 0 and does not
consult lift_start's index — with release absent exactly when the maximal
score is 0. -/
theorem c2_release_amended (frames : List Frame) (h : frames ≠ []) :
    (∀ i, i < frames.length →
      (release_scores frames 0).getD i 0 = release_score_spec frames i) ∧
    (maxQ (release_scores frames 0) = 0 → detect_release frames 0 = none) ∧
    (maxQ (release_scores frames 0) ≠ 0 →
      ∃ k, detect_release frames 0 = some k ∧ k < frames.length ∧
        (release_scores frames 0).getD k 0 = maxQ (release_scores frames 0) ∧
        ∀ j, j < k →
          (release_scores frames 0).getD j 0 < (release_scores frames 0).getD k 0) := by
  have hlen := release_scores_zero_length frames
  have hne : release_scores frames 0 ≠ [] := by
    intro he
    rw [he, List.length_nil] at hlen
    exact h (List.length_eq_zero.mp hlen.symm)
  refine ⟨fun i hi => release_scores_zero_getD hi, ?_, ?_⟩
  · intro hmax
    simp only [detect_release]
    rw [if_pos (Or.inr hmax)]
  · intro hmax
    simp only [detect_release]
    rw [if_neg (by push_neg; exact ⟨hne, hmax⟩)]
    refine ⟨argmaxQ (release_scores frames 0), rfl, ?_, getD_argmaxQ hne, ?_⟩
    · have := argmaxQ_lt_length hne
      omega
    · intro j hj
      rw [getD_argmaxQ hne]
      exact getD_lt_maxQ_of_lt_argmaxQ hj

/-- Witness for the amended C2 claim on the concrete window framesC2. -/
theorem c2_release_amended_witness :
    (∀ i, i < framesC2.length →
      (release_scores framesC2 0).getD i 0 = release_score_spec framesC2 i) ∧
    (maxQ (release_scores framesC2 0) = 0 → detect_release framesC2 0 = none) ∧
    (maxQ (release_scores framesC2 0) ≠ 0 →
      ∃ k, detect_release framesC2 0 = some k ∧ k < framesC2.length ∧
        (release_scores framesC2 0).getD k 0 = maxQ (release_scores framesC2 0) ∧
        ∀ j, j < k →
          (release_scores framesC2 0).getD j 0 < (release_scores framesC2 0).getD k 0) :=
  c2_release_amended framesC2 (by simp [framesC2])

/-- Counterexample to claim C2 as stated: on framesC2 the pipeline detects
lift_start at frame 2 but invokes the release detector from the window start,
yielding release frame 1; searching forward from lift_start's index, as the
claim demands, yields frame 5 — both with the claim's own score formula and
with the code's. -/
theorem c2_release_cex :
    kfLookup (detect_keyframes framesC2) "lift_start" = some 2 ∧
    kfLookup (detect_keyframes framesC2) "release" = some 1 ∧
    release_spec framesC2 2 = some 5 ∧
    detect_release framesC2 0 = some 1 ∧
    detect_release framesC2 2 = some 5 := by
  with_unfolding_all decide

/-- Claim C7 (amended): for a joint's velocity series over the analysis range
with at least 3 samples, the initiation frame is the frame at the first scan
position idx with 1 ≤ idx ≤ length - 2 (the source scan stops before the
last sample of the range) satisfying the increment-50 / velocity-20
condition; when no scan position qualifies it is the frame at the first
position strictly before the velocity peak whose velocity reaches 30 percent
of the peak; with neither (or with fewer than 3 samples) the joint is
omitted. -/
theorem c7_initiation_amended (vels : List (ℕ × ℚ)) (hs : 3 ≤ vels.length) :
    (∀ k, joint_initiation vels = some k →
      (∃ idx, 1 ≤ idx ∧ idx < vels.length - 1 ∧ initiation_hit vels idx ∧
        k = (vels.getD idx (0, 0)).1 ∧
        ∀ j, 1 ≤ j → j < idx → ¬ initiation_hit vels j) ∨
      ((∀ j, 1 ≤ j → j < vels.length - 1 → ¬ initiation_hit vels j) ∧
        ∃ idx, idx < initiation_peak_idx vels ∧
          initiation_threshold vels ≤ (vels.getD idx (0, 0)).2 ∧
          k = (vels.getD idx (0, 0)).1 ∧
          ∀ j, j < idx → (vels.getD j (0, 0)).2 < initiation_threshold vels)) ∧
    (joint_initiation vels = none →
      (∀ j, 1 ≤ j → j < vels.length - 1 → ¬ initiation_hit vels j) ∧
      ∀ idx, idx < initiation_peak_idx vels →
        (vels.getD idx (0, 0)).2 < initiation_threshold vels) := by
  have hlt : ¬ vels.length < 3 := by omega
  constructor
  · intro k hk
    unfold joint_initiation at hk
    rw [if_neg hlt] at hk
    cases hf : (pyRange 1 (vels.length - 1)).find?
        (fun idx => decide (initiation_hit vels idx)) with
    | some idx =>
      simp only [hf] at hk
      injection hk with hk
      left
      obtain ⟨h1, h2, h3, h4⟩ := pyRange_find?_eq_some hf
      exact ⟨idx, h1, h2, of_decide_eq_true h3, hk.symm,
        fun j hj1 hj2 => of_decide_eq_false (h4 j hj1 hj2)⟩
    | none =>
      simp only [hf] at hk
      right
      cases hg : (pyRange 0 (initiation_peak_idx vels)).find?
          (fun idx => decide (initiation_threshold vels ≤ (vels.getD idx (0, 0)).2)) with
      | some idx =>
        simp only [hg] at hk
        injection hk with hk
        obtain ⟨g1, g2, g3, g4⟩ := pyRange_find?_eq_some hg
        refine ⟨fun j hj1 hj2 => of_decide_eq_false (pyRange_find?_eq_none hf j hj1 hj2),
          idx, g2, of_decide_eq_true g3, hk.symm, ?_⟩
        intro j hj
        exact lt_of_not_le (of_decide_eq_false (g4 j (Nat.zero_le j) hj))
      | none =>
        simp only [hg] at hk
        exact Option.noConfusion hk
  · intro hk
    unfold joint_initiation at hk
    rw [if_neg hlt] at hk
    cases hf : (pyRange 1 (vels.length - 1)).find?
        (fun idx => decide (initiation_hit vels idx)) with
    | some idx =>
      simp only [hf] at hk
      exact Option.noConfusion hk
    | none =>
      simp only [hf] at hk
      refine ⟨fun j hj1 hj2 => of_decide_eq_false (pyRange_find?_eq_none hf j hj1 hj2), ?_⟩
      cases hg : (pyRange 0 (initiation_peak_idx vels)).find?
          (fun idx => decide (initiation_threshold vels ≤ (vels.getD idx (0, 0)).2)) with
      | some idx =>
        simp only [hg] at hk
        exact Option.noConfusion hk
      | none =>
        intro idx hidx
        exact lt_of_not_le (of_decide_eq_false (pyRange_find?_eq_none hg idx (Nat.zero_le idx) hidx))

/-- Witness for the amended C7 claim on the series 0, 10, 100. -/
theorem c7_initiation_amended_witness :
    (∀ k, joint_initiation [((0:ℕ), (0:ℚ)), (1, 10), (2, 100)] = some k →
      (∃ idx, 1 ≤ idx ∧ idx < [((0:ℕ), (0:ℚ)), (1, 10), (2, 100)].length - 1 ∧
        initiation_hit [((0:ℕ), (0:ℚ)), (1, 10), (2, 100)] idx ∧
        k = ([((0:ℕ), (0:ℚ)), (1, 10), (2, 100)].getD idx (0, 0)).1 ∧
        ∀ j, 1 ≤ j → j < idx → ¬ initiation_hit [((0:ℕ), (0:ℚ)), (1, 10), (2, 100)] j) ∨
      ((∀ j, 1 ≤ j → j < [((0:ℕ), (0:ℚ)), (1, 10), (2, 100)].length - 1 →
          ¬ initiation_hit [((0:ℕ), (0:ℚ)), (1, 10), (2, 100)] j) ∧
        ∃ idx, idx < initiation_peak_idx [((0:ℕ), (0:ℚ)), (1, 10), (2, 100)] ∧
          initiation_threshold [((0:ℕ), (0:ℚ)), (1, 10), (2, 100)] ≤
            ([((0:ℕ), (0:ℚ)), (1, 10), (2, 100)].getD idx (0, 0)).2 ∧
          k = ([((0:ℕ), (0:ℚ)), (1, 10), (2, 100)].getD idx (0, 0)).1 ∧
          ∀ j, j < idx → ([((0:ℕ), (0:ℚ)), (1, 10), (2, 100)].getD j (0, 0)).2 <
            initiation_threshold [((0:ℕ), (0:ℚ)), (1, 10), (2, 100)])) ∧
    (joint_initiation [((0:ℕ), (0:ℚ)), (1, 10), (2, 100)] = none →
      (∀ j, 1 ≤ j → j < [((0:ℕ), (0:ℚ)), (1, 10), (2, 100)].length - 1 →
        ¬ initiation_hit [((0:ℕ), (0:ℚ)), (1, 10), (2, 100)] j) ∧
      ∀ idx, idx < initiation_peak_idx [((0:ℕ), (0:ℚ)), (1, 10), (2, 100)] →
        ([((0:ℕ), (0:ℚ)), (1, 10), (2, 100)].getD idx (0, 0)).2 <
          initiation_threshold [((0:ℕ), (0:ℚ)), (1, 10), (2, 100)]) :=
  c7_initiation_amended [((0:ℕ), (0:ℚ)), (1, 10), (2, 100)] (by decide)

/-- Counterexample to claim C7 as stated: over the three-frame analysis range
the ankle velocity series is 0, 10, 100; the last index of the range
satisfies the claim's initiation condition (increment 90 ≥ 50 and velocity
100 ≥ 20), so the claim predicts initiation frame 2, but the code's scan
stops before the last sample, its fallback finds nothing, and the joint is
omitted from the result. -/
theorem c7_initiation_cex :
    joint_velocity_series framesC7 "right_ankle" 0 3 = [(0, 0), (1, 10), (2, 100)] ∧
    initiation_claim [(0, 0), (1, 10), (2, 100)] = some 2 ∧
    joint_initiation [(0, 0), (1, 10), (2, 100)] = none ∧
    (detect_force_sequence framesC7 keyframesC7).1 = [] := by
  with_unfolding_all decide

theorem group_avg_velocity_nonneg (f : Frame) (joints : List String) :
    0 ≤ group_avg_velocity f joints := by
  simp only [group_avg_velocity]
  split
  · exact le_refl 0
  · apply div_nonneg
    · apply List.sum_nonneg
      intro x hx
      have := List.of_mem_filter hx
      exact le_of_lt (of_decide_eq_true this)
    · exact Nat.cast_nonneg _

theorem lower_series_nonneg (frames : List Frame) (keyframes : List (String × ℕ)) :
    ∀ x ∈ lower_series frames keyframes, 0 ≤ x := by
  intro x hx
  obtain ⟨i, _, rfl⟩ := List.mem_map.mp hx
  exact group_avg_velocity_nonneg _ _

/-- Claim C8: whenever the analysis range is non-degenerate and the collected
lower- and upper-body average-velocity series are non-empty, the velocity
ratio is upper peak over lower peak (0 when the lower peak is 0), the peak
frames are the window start plus the first argmax of each series, and the
transfer timing is classified sequential / synchronized / reversed according
to whether the upper peak trails the lower peak by more than 3 frames, by 0
to 3 frames, or precedes it. -/
theorem c8_energy_transfer (frames : List Frame) (keyframes : List (String × ℕ))
    (h1 : (energy_start keyframes : ℤ) < energy_end frames keyframes)
    (h2 : lower_series frames keyframes ≠ [])
    (h3 : upper_series frames keyframes ≠ []) :
    (calculate_energy_transfer_efficiency frames keyframes).velocity_ratio =
      (if maxQ (lower_series frames keyframes) = 0 then 0
       else maxQ (upper_series frames keyframes) / maxQ (lower_series frames keyframes)) ∧
    (calculate_energy_transfer_efficiency frames keyframes).lower_peak_frame =
      energy_start keyframes + argmaxQ (lower_series frames keyframes) ∧
    (calculate_energy_transfer_efficiency frames keyframes).upper_peak_frame =
      energy_start keyframes + argmaxQ (upper_series frames keyframes) ∧
    (calculate_energy_transfer_efficiency frames keyframes).timing_difference =
      ((calculate_energy_transfer_efficiency frames keyframes).upper_peak_frame : ℤ) -
        ((calculate_energy_transfer_efficiency frames keyframes).lower_peak_frame : ℤ) ∧
    (3 < (calculate_energy_transfer_efficiency frames keyframes).timing_difference →
      (calculate_energy_transfer_efficiency frames keyframes).transfer_timing = "sequential") ∧
    (0 ≤ (calculate_energy_transfer_efficiency frames keyframes).timing_difference ∧
        (calculate_energy_transfer_efficiency frames keyframes).timing_difference ≤ 3 →
      (calculate_energy_transfer_efficiency frames keyframes).transfer_timing = "synchronized") ∧
    ((calculate_energy_transfer_efficiency frames keyframes).timing_difference < 0 →
      (calculate_energy_transfer_efficiency frames keyframes).transfer_timing = "reversed") := by
  have hcalc : calculate_energy_transfer_efficiency frames keyframes =
      { lower_body_peak_velocity := maxQ (lower_series frames keyframes),
        upper_body_peak_velocity := maxQ (upper_series frames keyframes),
        velocity_ratio :=
          if 0 < maxQ (lower_series frames keyframes) then
            maxQ (upper_series frames keyframes) / maxQ (lower_series frames keyframes)
          else 0,
        transfer_timing :=
          if 3 < ((energy_start keyframes + argmaxQ (upper_series frames keyframes) : ℕ) : ℤ) -
              ((energy_start keyframes + argmaxQ (lower_series frames keyframes) : ℕ) : ℤ) then
            "sequential"
          else if 0 ≤ ((energy_start keyframes + argmaxQ (upper_series frames keyframes) : ℕ) : ℤ) -
              ((energy_start keyframes + argmaxQ (lower_series frames keyframes) : ℕ) : ℤ) then
            "synchronized"
          else "reversed",
        lower_peak_frame := energy_start keyframes + argmaxQ (lower_series frames keyframes),
        upper_peak_frame := energy_start keyframes + argmaxQ (upper_series frames keyframes),
        timing_difference :=
          ((energy_start keyframes + argmaxQ (upper_series frames keyframes) : ℕ) : ℤ) -
            ((energy_start keyframes + argmaxQ (lower_series frames keyframes) : ℕ) : ℤ),
        start_frame := energy_start keyframes,
        end_frame := energy_end frames keyframes } := by
    simp only [calculate_energy_transfer_efficiency]
    rw [if_neg (not_le.mpr h1), if_neg (by push_neg; exact ⟨h2, h3⟩)]
  rw [hcalc]
  dsimp only
  have hL0 : 0 ≤ maxQ (lower_series frames keyframes) :=
    le_trans (le_refl 0) (lower_series_nonneg frames keyframes _ (maxQ_mem h2))
  refine ⟨?_, rfl, rfl, rfl, ?_, ?_, ?_⟩
  · rcases eq_or_lt_of_le hL0 with heq | hlt
    · rw [if_neg (by rw [← heq]; exact lt_irrefl 0), if_pos heq.symm]
    · rw [if_pos hlt, if_neg (ne_of_gt hlt)]
  · intro ht
    exact if_pos ht
  · intro ht
    rw [if_neg (not_lt.mpr ht.2), if_pos ht.1]
  · intro ht
    rw [if_neg (by omega), if_neg (not_le.mpr ht)]

set_option maxRecDepth 8000

/-- Witness for claim C8: the scenario with lower peak 100 at frame 10 and
upper peak 250 at frame 14 evaluates to velocity ratio 5/2, timing
difference 4 and transfer timing sequential. -/
theorem c8_energy_transfer_witness :
    (energy_start keyframesC8 : ℤ) < energy_end framesC8 keyframesC8 ∧
    lower_series framesC8 keyframesC8 ≠ [] ∧
    (calculate_energy_transfer_efficiency framesC8 keyframesC8).velocity_ratio = 5/2 ∧
    (calculate_energy_transfer_efficiency framesC8 keyframesC8).timing_difference = 4 ∧
    (calculate_energy_transfer_efficiency framesC8 keyframesC8).transfer_timing = "sequential" := by
  have h := c8_energy_transfer framesC8 keyframesC8 (by with_unfolding_all decide)
    (by with_unfolding_all decide) (by with_unfolding_all decide)
  refine ⟨by with_unfolding_all decide, by with_unfolding_all decide, ?_,
    by with_unfolding_all decide, ?_⟩
  · rw [h.1]
    with_unfolding_all decide
  · exact h.2.2.2.2.1 (by with_unfolding_all decide)

theorem raw_velocities_getElem? {positions : List (Option PixelPos)} {fps : ℝ} {i : ℕ}
    (h1 : 1 ≤ i) (h2 : i < positions.length) :
    (raw_velocities positions fps)[i]? =
      some (step_velocity fps (positions.getD (i-1) none) (positions.getD i none)) := by
  unfold raw_velocities
  cases i with
  | zero => omega
  | succ j =>
    rw [List.getElem?_cons_succ, List.getElem?_map,
      pyRange_getElem? (show j < positions.length - 1 by omega)]
    have e : 1 + j = j + 1 := by omega
    rw [Option.map_some', e]

theorem calculate_velocity_eq_smooth (positions : List (Option PixelPos)) (fps : ℝ)
    (s : ℕ) (h : 2 ≤ positions.length) :
    calculate_velocity positions fps s = smooth_data (raw_velocities positions fps) s := by
  simp only [calculate_velocity]
  rw [if_neg (by omega)]
  by_cases hs : 1 < s
  · rw [if_pos hs]
  · rw [if_neg hs]
    unfold smooth_data
    rw [if_pos (Or.inl (by omega))]

/-- Claim C5 (amended): for at least two samples, the raw (pre-smoothing)
velocity list starts with 0 and each later raw step is the Euclidean pixel
displacement between consecutive present samples times fps (0 when either
side is missing); the returned list is the centered moving-average smoothing
of that raw list — so the first element of the returned list itself need not
be 0. -/
theorem c5_calculate_velocity_amended (positions : List (Option PixelPos)) (fps : ℝ)
    (s : ℕ) (h : 2 ≤ positions.length) :
    (raw_velocities positions fps).head? = some 0 ∧
    (∀ i, 1 ≤ i → i < positions.length →
      (∀ p c, positions.getD (i-1) none = some p → positions.getD i none = some c →
        (raw_velocities positions fps)[i]? =
          some (Real.sqrt (((c.x_pixel - p.x_pixel : ℤ) : ℝ) ^ 2 +
            ((c.y_pixel - p.y_pixel : ℤ) : ℝ) ^ 2) * fps)) ∧
      ((positions.getD (i-1) none = none ∨ positions.getD i none = none) →
        (raw_velocities positions fps)[i]? = some 0)) ∧
    calculate_velocity positions fps s = smooth_data (raw_velocities positions fps) s := by
  refine ⟨rfl, ?_, calculate_velocity_eq_smooth positions fps s h⟩
  intro i h1 h2
  constructor
  · intro p c hp hc
    rw [raw_velocities_getElem? h1 h2, hp, hc]
    rfl
  · intro hmiss
    rw [raw_velocities_getElem? h1 h2]
    rcases hmiss with hm | hm
    · rw [hm]
      cases positions.getD i none <;> rfl
    · rw [hm]
      cases positions.getD (i-1) none <;> rfl

/-- Witness for the amended C5 claim at the concrete input positionsC5. -/
theorem c5_calculate_velocity_amended_witness :
    (raw_velocities positionsC5 1).head? = some 0 ∧
    (∀ i, 1 ≤ i → i < positionsC5.length →
      (∀ p c, positionsC5.getD (i-1) none = some p → positionsC5.getD i none = some c →
        (raw_velocities positionsC5 1)[i]? =
          some (Real.sqrt (((c.x_pixel - p.x_pixel : ℤ) : ℝ) ^ 2 +
            ((c.y_pixel - p.y_pixel : ℤ) : ℝ) ^ 2) * 1)) ∧
      ((positionsC5.getD (i-1) none = none ∨ positionsC5.getD i none = none) →
        (raw_velocities positionsC5 1)[i]? = some 0)) ∧
    calculate_velocity positionsC5 1 3 = smooth_data (raw_velocities positionsC5 1) 3 :=
  c5_calculate_velocity_amended positionsC5 1 3 (by decide)

/-- Counterexample to claim C5 as stated: the list returned by
calculate_velocity on positionsC5 (one 30-pixel step at fps 1, smoothing
window 3) begins with 15, not 0, because the centered moving average runs
after the raw list is built. -/
theorem c5_first_element_cex :
    (calculate_velocity positionsC5 1 3).head? = some 15 ∧ (15:ℝ) ≠ 0 := by
  have h30 : step_velocity 1 (positionsC5.getD 0 none) (positionsC5.getD 1 none) = 30 := by
    rw [show positionsC5.getD 0 none = some ⟨0, 0⟩ from rfl,
      show positionsC5.getD 1 none = some ⟨30, 0⟩ from rfl]
    show Real.sqrt ((((30:ℤ) - 0 : ℤ) : ℝ) ^ 2 + (((0:ℤ) - 0 : ℤ) : ℝ) ^ 2) * 1 = 30
    rw [show ((((30:ℤ) - 0 : ℤ) : ℝ) ^ 2 + (((0:ℤ) - 0 : ℤ) : ℝ) ^ 2) = 30 ^ 2 by push_cast; ring]
    rw [Real.sqrt_sq (by norm_num : (0:ℝ) ≤ 30)]
    norm_num
  have h0 : step_velocity 1 (positionsC5.getD 1 none) (positionsC5.getD 2 none) = 0 := by
    rw [show positionsC5.getD 1 none = some ⟨30, 0⟩ from rfl,
      show positionsC5.getD 2 none = some ⟨30, 0⟩ from rfl]
    show Real.sqrt ((((30:ℤ) - 30 : ℤ) : ℝ) ^ 2 + (((0:ℤ) - 0 : ℤ) : ℝ) ^ 2) * 1 = 0
    rw [show ((((30:ℤ) - 30 : ℤ) : ℝ) ^ 2 + (((0:ℤ) - 0 : ℤ) : ℝ) ^ 2) = 0 by push_cast; ring]
    rw [Real.sqrt_zero]
    norm_num
  have hraw : raw_velocities positionsC5 1 = [0, 30, 0] := by
    unfold raw_velocities
    rw [show pyRange 1 positionsC5.length = [1, 2] from rfl]
    rw [List.map_cons, List.map_cons, List.map_nil]
    rw [show (1:ℕ) - 1 = 0 from rfl, show (2:ℕ) - 1 = 1 from rfl, h30, h0]
  constructor
  · rw [calculate_velocity_eq_smooth positionsC5 1 3 (by decide), hraw]
    unfold smooth_data
    rw [if_neg (by norm_num)]
    rw [show List.range (List.length [(0:ℝ), 30, 0]) = [0, 1, 2] from rfl]
    rw [List.map_cons, List.head?_cons]
    dsimp only
    rw [show (0:ℕ) - 3 / 2 = 0 from rfl]
    rw [show min (List.length [(0:ℝ), 30, 0]) (0 + 3 / 2 + 1) - 0 = 2 from rfl]
    rw [show List.take 2 (List.drop 0 [(0:ℝ), 30, 0]) = [0, 30] from rfl]
    unfold listMean
    norm_num
  · norm_num

theorem step_velocity_nonneg {fps : ℝ} (h : 0 ≤ fps) (p c : Option PixelPos) :
    0 ≤ step_velocity fps p c := by
  cases p with
  | none => cases c <;> exact le_refl 0
  | some a =>
    cases c with
    | none => exact le_refl 0
    | some b => exact mul_nonneg (Real.sqrt_nonneg _) h

theorem raw_velocities_nonneg {positions : List (Option PixelPos)} {fps : ℝ}
    (h : 0 ≤ fps) : ∀ v ∈ raw_velocities positions fps, 0 ≤ v := by
  intro v hv
  unfold raw_velocities at hv
  rcases List.mem_cons.mp hv with rfl | hv
  · exact le_refl 0
  · obtain ⟨i, _, rfl⟩ := List.mem_map.mp hv
    exact step_velocity_nonneg h _ _

theorem smooth_data_nonneg {data : List ℝ} (h : ∀ v ∈ data, 0 ≤ v) (w : ℕ) :
    ∀ v ∈ smooth_data data w, 0 ≤ v := by
  intro v hv
  unfold smooth_data at hv
  split at hv
  · exact h v hv
  · obtain ⟨i, _, rfl⟩ := List.mem_map.mp hv
    simp only [listMean]
    apply div_nonneg
    · apply List.sum_nonneg
      intro x hx
      exact h x (List.mem_of_mem_drop (List.mem_of_mem_take hx))
    · exact Nat.cast_nonneg _

/-- Claim C10 (amended): for every position series, nonnegative fps (the
pipeline's fps is a video frame rate) and smoothing window, every element of
the returned velocity list is nonnegative; and whenever a wrist velocity is
nonnegative, the release score reduces to the two base terms — the upward
bonus is never added. -/
theorem c10_velocity_nonneg_amended :
    (∀ (positions : List (Option PixelPos)) (fps : ℝ) (s : ℕ), 0 ≤ fps →
      ∀ v ∈ calculate_velocity positions fps s, 0 ≤ v) ∧
    (∀ wy ev wv : ℚ, 0 ≤ wv →
      release_score_of wy ev wv = (1 - wy) * 40 + min (max 0 (ev * (7/2))) 35) := by
  constructor
  · intro positions fps s hfps v hv
    simp only [calculate_velocity] at hv
    split at hv
    · exact (List.eq_of_mem_replicate hv).ge
    · split at hv
      · exact smooth_data_nonneg (raw_velocities_nonneg hfps) _ v hv
      · exact raw_velocities_nonneg hfps v hv
  · intro wy ev wv h
    unfold release_score_of
    rw [if_neg (not_lt.mpr h), add_zero]

/-- Witness for the amended C10 claim at concrete inputs. -/
theorem c10_velocity_nonneg_amended_witness :
    ((0:ℝ) ≤ 1 ∧ ∀ v ∈ calculate_velocity positionsC5 1 3, 0 ≤ v) ∧
    ((0:ℚ) ≤ 0 ∧ release_score_of 0 0 0 = (1 - 0) * 40 + min (max 0 (0 * (7/2))) 35) :=
  ⟨⟨by norm_num, c10_velocity_nonneg_amended.1 positionsC5 1 3 (by norm_num)⟩,
   ⟨le_refl 0, c10_velocity_nonneg_amended.2 0 0 0 (le_refl 0)⟩⟩

/-- Counterexample to claim C10 as stated over every fps: with fps = -1 the
second velocity is -5, a negative element. -/
theorem c10_nonneg_cex :
    (calculate_velocity positionsC10 (-1) 1)[1]? = some ((-5:ℝ)) ∧ ((-5:ℝ) < 0) := by
  constructor
  · have hcv : calculate_velocity positionsC10 (-1) 1 = raw_velocities positionsC10 (-1) := by
      simp only [calculate_velocity]
      rw [if_neg (by decide), if_neg (by decide)]
    rw [hcv, raw_velocities_getElem? (le_refl 1) (by decide)]
    rw [show positionsC10.getD (1-1) none = some ⟨0, 0⟩ from rfl,
      show positionsC10.getD 1 none = some ⟨3, 4⟩ from rfl]
    show some (Real.sqrt ((((3:ℤ) - 0 : ℤ) : ℝ) ^ 2 + (((4:ℤ) - 0 : ℤ) : ℝ) ^ 2) * (-1)) =
      some (-5 : ℝ)
    rw [show ((((3:ℤ) - 0 : ℤ) : ℝ) ^ 2 + (((4:ℤ) - 0 : ℤ) : ℝ) ^ 2) = 5 ^ 2 by push_cast; ring]
    rw [Real.sqrt_sq (by norm_num : (0:ℝ) ≤ 5)]
    norm_num
  · norm_num

/-- Claim C9: calculate_angle returns None exactly when an input point is
missing, and on three present points it returns an angle in [0, 180]
degrees. -/
theorem c9_calculate_angle (p1 p2 p3 : Option Pt) :
    (p1 = none ∨ p2 = none ∨ p3 = none → calculate_angle p1 p2 p3 = none) ∧
    (∀ a b c, p1 = some a → p2 = some b → p3 = some c →
      ∃ θ, calculate_angle p1 p2 p3 = some θ ∧ 0 ≤ θ ∧ θ ≤ 180) := by
  constructor
  · intro h
    rcases h with rfl | rfl | rfl
    · rfl
    · cases p1 <;> rfl
    · cases p1 <;> cases p2 <;> rfl
  · intro a b c h1 h2 h3
    subst h1; subst h2; subst h3
    refine ⟨_, rfl, ?_, ?_⟩
    · exact div_nonneg (mul_nonneg (Real.arccos_nonneg _) (by norm_num)) Real.pi_pos.le
    · rw [div_le_iff Real.pi_pos]
      calc Real.arccos _ * 180 ≤ Real.pi * 180 :=
            mul_le_mul_of_nonneg_right (Real.arccos_le_pi _) (by norm_num)
        _ = 180 * Real.pi := mul_comm _ _

/-- Witness for claim C9 at a concrete right angle configuration. -/
theorem c9_calculate_angle_witness :
    ∃ θ, calculate_angle (some ⟨0, 0⟩) (some ⟨1, 0⟩) (some ⟨0, 1⟩) = some θ ∧
      0 ≤ θ ∧ θ ≤ 180 :=
  (c9_calculate_angle _ _ _).2 ⟨0, 0⟩ ⟨1, 0⟩ ⟨0, 1⟩ rfl rfl rfl

/-- Witness for claim C4 at the concrete input framesC1. -/
theorem c4_detect_keyframes_final_invariant_witness :
    List.Pairwise kfLE (detect_keyframes framesC1) ∧
    (∀ e ∈ detect_keyframes framesC1, (detect_ball_lowest framesC1).getD 0 ≤ e.2) ∧
    (detect_keyframes framesC1).head? =
      some ("ball_lowest", (detect_ball_lowest framesC1).getD 0) :=
  c4_detect_keyframes_final_invariant framesC1
